import Mathlib

/-!
Verification of the 1brc-rust aggregation pipeline (src/src/main.rs).

Text is modelled as List Char.  Rust i64 arithmetic is modelled on Int with
explicit twos-complement wrapping (release-mode overflow semantics); a Rust
panic is modelled as Option.none.  Fallible steps return Option.
-/

/-- Twos-complement wrapping of an unbounded integer into the i64 range,
the release-mode semantics of Rust i64 overflow.  9223372036854775808 is 2^63
and 18446744073709551616 is 2^64. -/
def i64.wrap (v : Int) : Int :=
  (v + 9223372036854775808) % 18446744073709551616 - 9223372036854775808

/-- Character carrying decimal digit d, the source expression b'0' + d as char. -/
def digitChar (d : Nat) : Char := Char.ofNat (48 + d)

/-- Loop body of temperature_to_int (main.rs lines 171-181): scan characters,
accumulating digits with i64 arithmetic, record a minus sign, skip dots and
newlines, and fail (source: unreachable) on any other character.  At the end
the sign is applied (i64 negation, hence wrapped). -/
def tempLoop (temperature : Int) ( is_negative : Bool) : List Char → Option Int
  | [] => some (if is_negative then i64.wrap (-temperature) else temperature)
  | c :: rest =>
    if 48 ≤ c.toNat ∧ c.toNat ≤ 57 then
      tempLoop (i64.wrap (i64.wrap (temperature * 10) + ((c.toNat : Int) - 48)))
         is_negative rest
    else if c = '-' then tempLoop temperature true rest
    else if c = '.' ∨ c = '\n' then tempLoop temperature  is_negative rest
    else none

/-- temperature_to_int (main.rs lines 163-188): fails on the empty string,
otherwise runs the scanning loop. -/
def temperature_to_int (raw_temperature : List Char) : Option Int :=
  if raw_temperature = [] then none
  else tempLoop 0 false raw_temperature

/-- Digit-emission loop of int_to_temperature (main.rs lines 215-220): the
digits of the magnitude, most significant first, occupy stack-buffer positions
TEMP_BUFF_SIZE - k .. TEMP_BUFF_SIZE - 1; each is pushed and a decimal point
follows the digit at buffer position 8 (a hard-coded constant in the source).
The first argument is the buffer position of the next digit. -/
def emitDigits (digit_index : Nat) : List Nat → List Char
  | [] => []
  | d :: rest =>
    digitChar d :: ((if digit_index = 8 then ['.'] else []) ++ emitDigits (digit_index + 1) rest)

/-- Fuel-driven base-10 digit extraction, least significant digit first: the
while loop of int_to_temperature (temperature % 10, temperature /= 10).  The
fuel argument only makes the recursion structural; with fuel at least n the
result is exactly Nat.digits 10 n (proved below). -/
def digitsAux10 : Nat → Nat → List Nat
  | _, 0 => []
  | 0, _ + 1 => []
  | fuel + 1, n + 1 => (n + 1) % 10 :: digitsAux10 fuel ((n + 1) / 10)

/-- Base-10 digits of n, least significant first, as computed by the while
loop of int_to_temperature. -/
def toDigits10 (n : Nat) : List Nat := digitsAux10 n n

/-- int_to_temperature (main.rs lines 192-221).  Returns the appended text
chunk (the source pushes it onto a caller-supplied buffer).  Zero prints as
0.0; otherwise a minus sign is emitted for negative input and the digits of
the magnitude are extracted least-significant-first into a TEMP_BUFF_SIZE
stack buffer.  When the magnitude has more than TEMP_BUFF_SIZE digits the
source indexes outside the stack buffer and panics: modelled as none.  (With
exactly TEMP_BUFF_SIZE digits the source decrements the usize index below
zero; in release builds the two wraparounds cancel and the output is correct,
which is the semantics modelled here; a debug build would already panic in
that case.  The i64 negation of the magnitude wraps only at -2^63, whose 19
digits overflow the 10-digit buffer used by every call site anyway.) -/
def int_to_temperature (TEMP_BUFF_SIZE : Nat) (temperature : Int) : Option (List Char) :=
  if temperature = 0 then some ['0', '.', '0']
  else
    let ds := toDigits10 temperature.natAbs
    if TEMP_BUFF_SIZE < ds.length then none
    else
      some ((if temperature < 0 then ['-'] else []) ++
        emitDigits (TEMP_BUFF_SIZE - ds.length) ds.reverse)

/-- CityData (main.rs lines 90-96): one aggregate record per distinct city,
all numeric fields are Rust i64. -/
@[ext] structure CityData where
  city_name : List Char
  minimum_temperature : Int
  maximum_temperature : Int
  temperatures_sum : Int
  data_points : Int
deriving DecidableEq

/-- Update step applied to a record for every processed line of its city
(main.rs lines 150-158): conditional minimum and maximum, wrapping i64 sum
and counter increments. -/
def updateWith (cd : CityData) (temperature : Int) : CityData :=
  { cd with
    minimum_temperature :=
      if temperature < cd.minimum_temperature then temperature else cd.minimum_temperature
    maximum_temperature :=
      if cd.maximum_temperature < temperature then temperature else cd.maximum_temperature
    temperatures_sum := i64.wrap (cd.temperatures_sum + temperature)
    data_points := i64.wrap (cd.data_points + 1) }

/-- The aggregate table, HashMap from interned city name to record.  The model
uses an association list in insertion order; HashMap iteration order is
unspecified in the source, and no claim depends on the order chosen here.
Keys are distinct by construction (inserted only when absent). -/
abbrev Table : Type := List (List Char × CityData)

/-- Lookup in the aggregate table: HashMap get, first matching key.  The
source looks up through an arena-interned copy of the key; the copy is equal
to the original as a string, so the model uses the string value itself. -/
def lookupTbl (tbl : Table) (city : List Char) : Option CityData :=
  match tbl with
  | [] => none
  | (k, cd) :: rest => if k = city then some cd else lookupTbl rest city

/-- In-place mutation through the mutable reference returned by get_mut:
replace the (unique) entry of the given key by f of it. -/
def updateFirst (tbl : Table) (city : List Char) (f : CityData → CityData) : Table :=
  match tbl with
  | [] => []
  | (k, cd) :: rest =>
    if k = city then (k, f cd) :: rest else (k, cd) :: updateFirst rest city f

/-- str::split_once at the first semicolon (main.rs line 124): none when the
separator is absent, otherwise the text before and after it. -/
def split_once : List Char → Option (List Char × List Char)
  | [] => none
  | c :: rest =>
    if c = ';' then some ([], rest)
    else (split_once rest).map (fun p => (c :: p.1, p.2))

/-- process_line (main.rs lines 118-159): split at the semicolon (expect:
Invalid line format), parse the value (a parse failure aborts), then either
update the existing record through get_mut, or insert a fresh record with
minimum = maximum = temperature, sum = 0, count = 0, re-look it up (expect:
Could not insert city data), and fall through to the common update.  Every
expect-panic is modelled as none. -/
def process_line (tbl : Table) (line : List Char) : Option Table :=
  match split_once line with
  | none => none
  | some (city_name, raw_temperature) =>
    match temperature_to_int raw_temperature with
    | none => none
    | some temperature =>
      match lookupTbl tbl city_name with
      | some _ => some (updateFirst tbl city_name (fun cd => updateWith cd temperature))
      | none =>
        let tbl2 : Table :=
          tbl ++ [(city_name, ⟨city_name, temperature, temperature, 0, 0⟩)]
        match lookupTbl tbl2 city_name with
        | none => none
        | some _ => some (updateFirst tbl2 city_name (fun cd => updateWith cd temperature))

/-- The driver loop of main (main.rs lines 42-61): process each line in
order, aborting the whole run on the first line that fails. -/
def processAllFrom (tbl : Table) : List (List Char) → Option Table
  | [] => some tbl
  | line :: rest =>
    match process_line tbl line with
    | none => none
    | some tbl2 => processAllFrom tbl2 rest

/-- The scaled values submitted under a given key by a list of lines: for
each line whose key part equals the city, the parsed value. -/
def submitted (city : List Char) (lines : List (List Char)) : List Int :=
  lines.filterMap (fun line =>
    match split_once line with
    | none => none
    | some (c, raw) => if c = city then temperature_to_int raw else none)

/-- CityData::summary (main.rs lines 101-113): append city=min/mean/max onto
the caller buffer, the mean being the truncating i64 division of sum by
count.  Rust division by zero and formatter panics are modelled as none; the
pushes are modelled as one concatenation. -/
def CityData.summary (cd : CityData) (summary_string : List Char) : Option (List Char) :=
  if cd.data_points = 0 then none
  else
    match int_to_temperature 10 cd.minimum_temperature,
        int_to_temperature 10 (Int.tdiv cd.temperatures_sum cd.data_points),
        int_to_temperature 10 cd.maximum_temperature with
    | some mn, some mean, some mx =>
      some (summary_string ++ cd.city_name ++ ['='] ++ mn ++ ['/'] ++ mean ++ ['/'] ++ mx)
    | _, _, _ => none

/-- Modelled from the spec (report renderer, section 4.5), for comparison
with CityData.summary: identical except that the mean is the floor division
of sum by count, as the words floor-divided prescribe. -/
def summary_floor_spec (cd : CityData) (summary_string : List Char) : Option (List Char) :=
  if cd.data_points = 0 then none
  else
    match int_to_temperature 10 cd.minimum_temperature,
        int_to_temperature 10 (Int.fdiv cd.temperatures_sum cd.data_points),
        int_to_temperature 10 cd.maximum_temperature with
    | some mn, some mean, some mx =>
      some (summary_string ++ cd.city_name ++ ['='] ++ mn ++ ['/'] ++ mean ++ ['/'] ++ mx)
    | _, _, _ => none

/-- Renderer fold of main (main.rs lines 67-71): append each record summary
followed by a comma and a space onto the accumulated blob. -/
def renderBody : List CityData → List Char → Option (List Char)
  | [], acc => some acc
  | cd :: rest, acc =>
    match CityData.summary cd acc with
    | none => none
    | some acc2 => renderBody rest (acc2 ++ [',', ' '])

/-- Report rendering of main (main.rs lines 65-74): start from an opening
brace, run the fold, then unconditionally pop twice (String::pop of an empty
buffer is a no-op, and List.dropLast likewise) and push the closing brace. -/
def renderReport (records : List CityData) : Option (List Char) :=
  (renderBody records ['\x7b']).map (fun s => s.dropLast.dropLast ++ ['\x7d'])

/-- The whole run (main.rs main): process every line, then render the values
of the final table; the report text exists only when no line aborted, so a
none result means the run died before any output was written. -/
def run (lines : List (List Char)) : Option (List Char) :=
  (processAllFrom [] lines).bind (fun tbl => renderReport (tbl.map (fun e => e.2)))

/-- Entry chunks of each record, rendered standalone: summaries records is
some when every record renders, mirroring renderBody with an empty buffer. -/
def summaries : List CityData → Option (List (List Char))
  | [] => some []
  | cd :: rest =>
    match CityData.summary cd [], summaries rest with
    | some e, some es => some (e :: es)
    | _, _ => none

/-- Entries joined by a comma and a space with no trailing separator, the
shape the spec prescribes for the report body. -/
def joinSep : List (List Char) → List Char
  | [] => []
  | [e] => e
  | e :: es => e ++ [',', ' '] ++ joinSep es

/-- A line on which process_line aborts: no semicolon, or a value part the
parser rejects (empty, or containing a character outside minus, dot, digit
and newline). -/
def badLine (line : List Char) : Bool :=
  match split_once line with
  | none => true
  | some (_, raw) => (temperature_to_int raw).isNone

/-! Arithmetic facts about the i64 wrapping model. -/

lemma i64.wrap_emod (v : Int) :
    i64.wrap v % 18446744073709551616 = v % 18446744073709551616 := by
  unfold i64.wrap; omega

lemma i64.wrap_congr {a b : Int}
    (h : a % 18446744073709551616 = b % 18446744073709551616) :
    i64.wrap a = i64.wrap b := by
  unfold i64.wrap; omega

lemma i64.wrap_bounds (v : Int) :
    -9223372036854775808 ≤ i64.wrap v ∧ i64.wrap v < 9223372036854775808 := by
  unfold i64.wrap; omega

lemma i64.wrap_eq_self {v : Int} (h1 : -9223372036854775808 ≤ v)
    (h2 : v < 9223372036854775808) : i64.wrap v = v := by
  unfold i64.wrap; omega

lemma i64.wrap_idem (v : Int) : i64.wrap (i64.wrap v) = i64.wrap v :=
  i64.wrap_eq_self (i64.wrap_bounds v).1 (i64.wrap_bounds v).2

lemma i64.wrap_wrap_add_left (a b : Int) :
    i64.wrap (i64.wrap a + b) = i64.wrap (a + b) :=
  i64.wrap_congr (by rw [Int.add_emod, i64.wrap_emod, ← Int.add_emod])

/-! The fuel-based digit extractor agrees with Nat.digits. -/

lemma digitsAux10_eq : ∀ fuel n, n ≤ fuel → digitsAux10 fuel n = Nat.digits 10 n := by
  intro fuel
  induction fuel with
  | zero =>
    intro n h
    have hn : n = 0 := by omega
    subst hn; simp [digitsAux10]
  | succ fuel ih =>
    intro n h
    match n with
    | 0 => simp [digitsAux10]
    | m + 1 =>
      have hd : (m + 1) / 10 ≤ fuel := by
        have := Nat.div_lt_self (Nat.succ_pos m) (by norm_num : 1 < 10)
        omega
      rw [show digitsAux10 (fuel + 1) (m + 1) = (m + 1) % 10 :: digitsAux10 fuel ((m + 1) / 10)
            from rfl,
        ih _ hd, Nat.digits_def' (by norm_num : 1 < 10) (Nat.succ_pos m)]

lemma toDigits10_eq (n : Nat) : toDigits10 n = Nat.digits 10 n :=
  digitsAux10_eq n n le_rfl

/-! Accumulation of decimal digits, exact and wrapped. -/

/-- One exact accumulation step of the parsing loop. -/
def pstep (a : Int) (d : Nat) : Int := a * 10 + (d : Int)

/-- One wrapped (i64) accumulation step of the parsing loop. -/
def wstep (a : Int) (d : Nat) : Int := i64.wrap (i64.wrap (a * 10) + (d : Int))

lemma purefold_congr : ∀ (ds : List Nat) (a b : Int),
    a % 18446744073709551616 = b % 18446744073709551616 →
    List.foldl pstep a ds % 18446744073709551616 =
      List.foldl pstep b ds % 18446744073709551616 := by
  intro ds
  induction ds with
  | nil => intro a b h; simpa using h
  | cons d ds ih =>
    intro a b h
    simp only [List.foldl_cons]
    exact ih _ _ (by unfold pstep; omega)

lemma foldl_wstep_eq : ∀ (ds : List Nat) (t : Int), i64.wrap t = t →
    List.foldl wstep t ds = i64.wrap (List.foldl pstep t ds) := by
  intro ds
  induction ds with
  | nil => intro t h; simpa using h.symm
  | cons d ds ih =>
    intro t h
    simp only [List.foldl_cons]
    rw [ih (wstep t d) (i64.wrap_idem _)]
    exact i64.wrap_congr (purefold_congr ds _ _ (by unfold wstep pstep i64.wrap; omega))

lemma foldl_pstep_nonneg : ∀ (ds : List Nat) (t : Int), 0 ≤ t →
    0 ≤ List.foldl pstep t ds := by
  intro ds
  induction ds with
  | nil => intro t h; simpa using h
  | cons d ds ih =>
    intro t h
    simp only [List.foldl_cons]
    exact ih _ (by unfold pstep; positivity)

lemma foldl_pstep_reverse (le : List Nat) :
    List.foldl pstep 0 le.reverse = (Nat.ofDigits 10 le : Int) := by
  induction le with
  | nil => simp [Nat.ofDigits]
  | cons d le ih =>
    rw [List.reverse_cons, List.foldl_append, ih,
      show (Nat.ofDigits 10 (d :: le) : Int) = (d : Int) + 10 * Nat.ofDigits 10 le from rfl]
    simp only [List.foldl_cons, List.foldl_nil, pstep]
    ring

lemma foldl_pstep_digits (n : Nat) :
    List.foldl pstep 0 (Nat.digits 10 n).reverse = (n : Int) := by
  rw [foldl_pstep_reverse]
  exact_mod_cast congrArg (Nat.cast : Nat → Int) (Nat.ofDigits_digits 10 n)

/-! Stepping lemmas for the parsing loop. -/

lemma digitChar_toNat {d : Nat} (hd : d < 10) : (digitChar d).toNat = 48 + d := by
  interval_cases d <;> decide

lemma tempLoop_digit {d : Nat} (hd : d < 10) (t : Int) (neg : Bool) (rest : List Char) :
    tempLoop t neg (digitChar d :: rest) = tempLoop (wstep t d) neg rest := by
  simp only [tempLoop, digitChar_toNat hd]
  rw [if_pos ⟨by omega, by omega⟩]
  have hv : ((48 + d : Nat) : Int) - 48 = (d : Int) := by push_cast; ring
  rw [hv]
  rfl

lemma tempLoop_dot (t : Int) (neg : Bool) (rest : List Char) :
    tempLoop t neg ('.' :: rest) = tempLoop t neg rest := by
  simp only [tempLoop]
  rw [if_neg (by decide), if_neg (by decide), if_pos (by decide)]

lemma tempLoop_nl (t : Int) (neg : Bool) (rest : List Char) :
    tempLoop t neg ('\n' :: rest) = tempLoop t neg rest := by
  simp only [tempLoop]
  rw [if_neg (by decide), if_neg (by decide), if_pos (by decide)]

lemma tempLoop_minus (t : Int) (neg : Bool) (rest : List Char) :
    tempLoop t neg ('-' :: rest) = tempLoop t true rest := by
  simp only [tempLoop]
  rw [if_neg (by decide), if_pos (by decide)]

lemma tempLoop_emit (ds : List Nat) : ∀ (idx : Nat) (t : Int) (neg : Bool) (rest : List Char),
    (∀ d ∈ ds, d < 10) →
    tempLoop t neg (emitDigits idx ds ++ rest) = tempLoop (List.foldl wstep t ds) neg rest := by
  induction ds with
  | nil => intro idx t neg rest _; simp [emitDigits]
  | cons d ds ih =>
    intro idx t neg rest hd
    have hdd : d < 10 := hd d (List.mem_cons_self d ds)
    have hds : ∀ e ∈ ds, e < 10 := fun e he => hd e (List.mem_cons_of_mem d he)
    simp only [emitDigits, List.cons_append, List.append_assoc,
      tempLoop_digit hdd, List.foldl_cons]
    by_cases h8 : idx = 8
    · subst h8
      rw [if_pos rfl]
      simp only [List.singleton_append, tempLoop_dot]
      exact ih (8 + 1) _ neg rest hds
    · simp only [if_neg h8, List.nil_append]
      exact ih (idx + 1) _ neg rest hds

lemma tempLoop_map (ds : List Nat) : ∀ (t : Int) (neg : Bool) (rest : List Char),
    (∀ d ∈ ds, d < 10) →
    tempLoop t neg (List.map digitChar ds ++ rest) = tempLoop (List.foldl wstep t ds) neg rest := by
  induction ds with
  | nil => intro t neg rest _; simp
  | cons d ds ih =>
    intro t neg rest hd
    have hdd : d < 10 := hd d (List.mem_cons_self d ds)
    simp only [List.map_cons, List.cons_append, tempLoop_digit hdd, List.foldl_cons]
    exact ih _ neg rest (fun e he => hd e (List.mem_cons_of_mem d he))

lemma emitDigits_ne_nil (idx : Nat) (d : Nat) (ds : List Nat) :
    emitDigits idx (d :: ds) ≠ [] := by
  simp [emitDigits]

lemma digits_len_le_ten {n : Nat} (h : n < 10 ^ 10) : (Nat.digits 10 n).length ≤ 10 := by
  rcases eq_or_ne n 0 with h0 | h0
  · subst h0; simp
  · rw [Nat.digits_len 10 n (by norm_num) h0]
    have := Nat.log_lt_of_lt_pow h0 h
    omega

/-- C2, counterexample: the round-trip law fails at the i64 value 10^10,
whose eleven digits overflow the ten-byte digit buffer of the formatter, so
formatting panics instead of producing text that parses back. -/
theorem claim_C2_counterexample :
    ¬ (int_to_temperature 10 10000000000).bind temperature_to_int = some 10000000000 := by
  decide

/-- C2, amended: for every scaled integer x of magnitude below 10^10 (at most
ten decimal digits, the capacity of the stack digit buffer), parsing the text
produced by formatting x yields x back. -/
theorem claim_C2_round_trip (x : Int) (h1 : -10000000000 < x) (h2 : x < 10000000000) :
    (int_to_temperature 10 x).bind temperature_to_int = some x := by
  by_cases hx : x = 0
  · subst hx; decide
  · have hn0 : x.natAbs ≠ 0 := fun h => hx (Int.natAbs_eq_zero.mp h)
    have hnlt : (x.natAbs : Int) < 10000000000 := by
      rcases Int.natAbs_eq x with h | h <;> omega
    have h10 : (10 : Nat) ^ 10 = 10000000000 := by norm_num
    have hnat : x.natAbs < 10 ^ 10 := by rw [h10]; exact_mod_cast hnlt
    have hlen : (Nat.digits 10 x.natAbs).length ≤ 10 := digits_len_le_ten hnat
    have hne : Nat.digits 10 x.natAbs ≠ [] := Nat.digits_ne_nil_iff_ne_zero.mpr hn0
    have hall : ∀ d ∈ (Nat.digits 10 x.natAbs).reverse, d < 10 := fun d hdm =>
      Nat.digits_lt_base (by norm_num) (List.mem_reverse.mp hdm)
    have hfold : List.foldl wstep 0 (Nat.digits 10 x.natAbs).reverse = (x.natAbs : Int) := by
      rw [foldl_wstep_eq _ 0 (by decide), foldl_pstep_digits]
      exact i64.wrap_eq_self (by omega) (by omega)
    simp only [int_to_temperature, toDigits10_eq, if_neg hx,
      if_neg (by omega : ¬ 10 < (Nat.digits 10 x.natAbs).length)]
    rcases lt_or_gt_of_ne hx with hneg | hpos
    · rw [if_pos hneg]
      show temperature_to_int
          ('-' :: emitDigits (10 - (Nat.digits 10 x.natAbs).length)
            (Nat.digits 10 x.natAbs).reverse) = some x
      unfold temperature_to_int
      rw [if_neg (by simp), tempLoop_minus,
        ← List.append_nil (emitDigits (10 - (Nat.digits 10 x.natAbs).length)
          (Nat.digits 10 x.natAbs).reverse),
        tempLoop_emit _ _ 0 true [] hall, hfold]
      have hxa : (x.natAbs : Int) = -x := by rcases Int.natAbs_eq x with h | h <;> omega
      show some (i64.wrap (-(x.natAbs : Int))) = some x
      rw [hxa, neg_neg, i64.wrap_eq_self (by omega) (by omega)]
    · rw [if_neg (by omega : ¬ x < 0)]
      cases hrev : (Nat.digits 10 x.natAbs).reverse with
      | nil => exact absurd (by simpa using congrArg List.reverse hrev) hne
      | cons d ts =>
        show temperature_to_int
            ([] ++ emitDigits (10 - (Nat.digits 10 x.natAbs).length) (d :: ts)) = some x
        rw [List.nil_append]
        unfold temperature_to_int
        rw [if_neg (emitDigits_ne_nil _ d ts),
          ← List.append_nil (emitDigits (10 - (Nat.digits 10 x.natAbs).length) (d :: ts)),
          tempLoop_emit _ _ 0 false [] (hrev ▸ hall), ← hrev, hfold]
        have hxa : (x.natAbs : Int) = x := by rcases Int.natAbs_eq x with h | h <;> omega
        show some (x.natAbs : Int) = some x
        rw [hxa]

/-- C3: on the single-digit scaled value -5 the formatter emits the two
characters minus and five, with no decimal point and no leading zero, not the
required -0.5: the decimal point is only pushed after buffer position 8,
which a single-digit magnitude (occupying only position 9) never reaches. -/
theorem claim_C3_single_digit_no_point :
    int_to_temperature 10 (-5) = some ['-', '5'] ∧
      (['-', '5'] : List Char) ≠ ['-', '0', '.', '5'] := by decide

/-- C2, witness: the amended round trip at the concrete scaled value -123. -/
theorem claim_C2_witness :
    (-10000000000 : Int) < -123 ∧ (-123 : Int) < 10000000000 ∧
      (int_to_temperature 10 (-123)).bind temperature_to_int = some (-123) :=
  ⟨by decide, by decide, claim_C2_round_trip (-123) (by decide) (by decide)⟩

/-- Text of a value of the grammar minus? digit+ dot digit newline?, built
from its body digits, its fractional digit, its sign and the optional
trailing newline. -/
def grammarText (neg : Bool) (body : List Nat) (dl : Nat) (nl : Bool) : List Char :=
  (if neg then ['-'] else []) ++ List.map digitChar body ++
    ['.', digitChar dl] ++ (if nl then ['\n'] else [])

/-- Signed integer denoted by the digit string of the grammar value with the
dot removed: the scaled value the spec says parsing must return. -/
def grammarValue (neg : Bool) (body : List Nat) (dl : Nat) : Int :=
  (if neg then -1 else 1) * List.foldl pstep 0 (body ++ [dl])

lemma i64.wrap_neg_wrap {v : Int} (h0 : 0 ≤ v) (h : v ≤ 9223372036854775808) :
    i64.wrap (-(i64.wrap v)) = -v := by
  unfold i64.wrap; omega

set_option maxRecDepth 8000 in
/-- C5, counterexample: the grammar string 922337203685477580.8 denotes the
scaled integer 2^63, but the parse accumulator is an i64 and wraps, so the
code returns -2^63 instead of the value the claim prescribes. -/
theorem claim_C5_counterexample :
    temperature_to_int
        ['9', '2', '2', '3', '3', '7', '2', '0', '3', '6', '8', '5', '4', '7', '7', '5',
          '8', '0', '.', '8'] = some (-9223372036854775808) ∧
      (-9223372036854775808 : Int) ≠ 9223372036854775808 := by decide

/-- C5, amended: for every input of the grammar minus? digit+ dot digit with
an optional trailing newline whose denoted signed scaled value fits in i64,
parse returns exactly that value; outside the i64 range the accumulator
wraps. -/
theorem claim_C5_parse_grammar (body : List Nat) (dl : Nat) (neg nl : Bool)
    (hb : body ≠ []) (hball : ∀ d ∈ body, d < 10) (hdl : dl < 10)
    (hlo : -9223372036854775808 ≤ grammarValue neg body dl)
    (hhi : grammarValue neg body dl < 9223372036854775808) :
    temperature_to_int (grammarText neg body dl nl) = some (grammarValue neg body dl) := by
  have hvnn : 0 ≤ List.foldl pstep 0 (body ++ [dl]) := foldl_pstep_nonneg _ 0 le_rfl
  have hT : List.foldl wstep 0 (body ++ [dl]) =
      i64.wrap (List.foldl pstep 0 (body ++ [dl])) := foldl_wstep_eq _ 0 (by decide)
  have step : ∀ (ng : Bool) (term : List Char),
      tempLoop 0 ng (List.map digitChar body ++ ('.' :: (digitChar dl :: term)))
        = tempLoop (List.foldl wstep 0 (body ++ [dl])) ng term := by
    intro ng term
    rw [tempLoop_map body 0 ng _ hball, tempLoop_dot, tempLoop_digit hdl, List.foldl_append]
    rfl
  have htail : ∀ (ng : Bool) (term : List Char), term = [] ∨ term = ['\n'] →
      tempLoop (List.foldl wstep 0 (body ++ [dl])) ng term
        = some (if ng then i64.wrap (-(List.foldl wstep 0 (body ++ [dl])))
            else List.foldl wstep 0 (body ++ [dl])) := by
    intro ng term hterm
    rcases hterm with h | h <;> subst h
    · rfl
    · rw [tempLoop_nl]; rfl
  cases hbody : body with
  | nil => exact absurd hbody hb
  | cons b bs =>
    rw [← hbody]
    cases neg with
    | true =>
      have hval : grammarValue true body dl = -(List.foldl pstep 0 (body ++ [dl])) := by
        simp [grammarValue]
      have hsh : grammarText true body dl nl =
          '-' :: (List.map digitChar body ++
            ('.' :: (digitChar dl :: (if nl then ['\n'] else [])))) := by
        simp [grammarText]
      unfold temperature_to_int
      rw [hsh, if_neg (by simp), tempLoop_minus, step true,
        htail true _ (by cases nl <;> simp), if_pos rfl, hT,
        i64.wrap_neg_wrap hvnn (by rw [hval] at hlo; omega), ← hval]
    | false =>
      have hval : grammarValue false body dl = List.foldl pstep 0 (body ++ [dl]) := by
        simp [grammarValue]
      have hsh : grammarText false body dl nl =
          List.map digitChar body ++
            ('.' :: (digitChar dl :: (if nl then ['\n'] else []))) := by
        simp [grammarText]
      unfold temperature_to_int
      rw [hsh, if_neg (by rw [hbody]; simp), step false,
        htail false _ (by cases nl <;> simp), if_neg (by simp), hT,
        i64.wrap_eq_self (by omega) (by rw [hval] at hhi; omega), ← hval]

/-- C5, witness: the amended parse theorem at the concrete input -3.5, whose
scaled value is -35. -/
theorem claim_C5_witness :
    grammarText true [3] 5 false = ['-', '3', '.', '5'] ∧
      grammarValue true [3] 5 = -35 ∧
      temperature_to_int ['-', '3', '.', '5'] = some (-35) := by
  refine ⟨by decide, by decide, ?_⟩
  have h := claim_C5_parse_grammar [3] 5 true false (by decide) (by decide) (by decide)
    (by decide) (by decide)
  rwa [show grammarText true [3] 5 false = ['-', '3', '.', '5'] from by decide,
    show grammarValue true [3] 5 = -35 from by decide] at h

/-- C4, counterexample: for the record with sum -35 and count 2 the code
renders the mean from the truncating division -35 tdiv 2 = -17 (text -1.7),
while floor division gives -35 fdiv 2 = -18 (text -1.8), so the emitted mean
is not the floor-divided one. -/
theorem claim_C4_counterexample :
    CityData.summary ⟨['a'], -35, -35, -35, 2⟩ [] ≠
      summary_floor_spec ⟨['a'], -35, -35, -35, 2⟩ [] := by decide

/-- C4, amended: for every aggregate record with positive count and
nonnegative sum the emitted mean equals the codec-formatted floor division of
sum by count; for negative sums the code truncates toward zero instead of
flooring. -/
theorem claim_C4_mean_division (cd : CityData) (buf : List Char)
    (hc : 0 < cd.data_points) (hs : 0 ≤ cd.temperatures_sum) :
    CityData.summary cd buf = summary_floor_spec cd buf := by
  unfold CityData.summary summary_floor_spec
  rw [Int.fdiv_eq_tdiv hs (by omega)]

/-- C4, witness: the amended mean theorem at the concrete record with sum 40
over two data points, mean 2.0. -/
theorem claim_C4_witness :
    (0 : Int) < 2 ∧ (0 : Int) ≤ 40 ∧
      CityData.summary ⟨['a'], 10, 30, 40, 2⟩ [] =
        summary_floor_spec ⟨['a'], 10, 30, 40, 2⟩ [] :=
  ⟨by decide, by decide, claim_C4_mean_division ⟨['a'], 10, 30, 40, 2⟩ [] (by decide) (by decide)⟩

/-! Association-table lemmas: lookup after append and after in-place update. -/

lemma lookupTbl_append_self (tbl : Table) (c : List Char) (r : CityData)
    (h : lookupTbl tbl c = none) : lookupTbl (tbl ++ [(c, r)]) c = some r := by
  induction tbl with
  | nil => simp [lookupTbl]
  | cons e rest ih =>
    obtain ⟨k, cd⟩ := e
    by_cases hk : k = c
    · simp [lookupTbl, hk] at h
    · simp only [List.cons_append, lookupTbl, if_neg hk] at h ⊢
      exact ih h

lemma lookupTbl_append_ne (tbl : Table) (c city : List Char) (r : CityData)
    (h : c ≠ city) : lookupTbl (tbl ++ [(c, r)]) city = lookupTbl tbl city := by
  induction tbl with
  | nil => simp [lookupTbl, if_neg h]
  | cons e rest ih =>
    obtain ⟨k, cd⟩ := e
    by_cases hk : k = city
    · simp [lookupTbl, hk]
    · simp only [List.cons_append, lookupTbl, if_neg hk]
      exact ih

lemma lookupTbl_updateFirst_self (tbl : Table) (c : List Char) (f : CityData → CityData)
    (r : CityData) (h : lookupTbl tbl c = some r) :
    lookupTbl (updateFirst tbl c f) c = some (f r) := by
  induction tbl with
  | nil => simp [lookupTbl] at h
  | cons e rest ih =>
    obtain ⟨k, cd⟩ := e
    by_cases hk : k = c
    · simp only [lookupTbl, if_pos hk] at h
      simp only [updateFirst, if_pos hk, lookupTbl]
      rw [Option.some_inj.mp h]
    · simp only [lookupTbl, if_neg hk] at h
      simp only [updateFirst, if_neg hk, lookupTbl, if_neg hk]
      exact ih h

lemma lookupTbl_updateFirst_ne (tbl : Table) (c city : List Char)
    (f : CityData → CityData) (h : c ≠ city) :
    lookupTbl (updateFirst tbl c f) city = lookupTbl tbl city := by
  induction tbl with
  | nil => rfl
  | cons e rest ih =>
    obtain ⟨k, cd⟩ := e
    by_cases hk : k = c
    · subst hk
      simp only [updateFirst, if_pos rfl, lookupTbl, if_neg h]
    · by_cases hc2 : k = city
      · simp only [updateFirst, if_neg hk, lookupTbl, if_pos hc2]
      · simp only [updateFirst, if_neg hk, lookupTbl, if_neg hc2]
        exact ih

/-- C9: whenever the line splits at a semicolon and its value parses, the
line processor succeeds: in particular the lookup immediately following the
first-sight insert always finds the freshly inserted key, so the expect
branch (Could not insert city data) is unreachable. -/
theorem claim_C9_insert_lookup (tbl : Table) (line city raw : List Char) (temperature : Int)
    (hs : split_once line = some (city, raw))
    (hv : temperature_to_int raw = some temperature) :
    (process_line tbl line).isSome = true := by
  simp only [process_line, hs, hv]
  cases hl : lookupTbl tbl city with
  | some r => simp
  | none =>
    rw [lookupTbl_append_self tbl city _ hl]
    simp

/-- C9, witness: the processor succeeds on the concrete first-sight line
a;1.0 against the empty table. -/
theorem claim_C9_witness :
    (process_line [] ['a', ';', '1', '.', '0', '\n']).isSome = true :=
  claim_C9_insert_lookup [] ['a', ';', '1', '.', '0', '\n'] ['a'] ['1', '.', '0', '\n'] 10
    (by decide) (by decide)

lemma process_line_badLine (line : List Char) (hb : badLine line = true) (tbl : Table) :
    process_line tbl line = none := by
  unfold badLine at hb
  unfold process_line
  cases hs : split_once line with
  | none => rfl
  | some p =>
    obtain ⟨c, raw⟩ := p
    rw [hs] at hb
    dsimp only at hb ⊢
    rw [Option.isNone_iff_eq_none] at hb
    rw [hb]

/-- C8: a line with no semicolon, or whose value part the parser rejects
(empty, or containing a character outside minus, dot, digit, newline),
aborts the whole run wherever it occurs: the run result is none, and since
the report text only exists on a some result, no output (in particular no
partial report) is ever produced. -/
theorem claim_C8_fatal_abort (pre post : List (List Char)) (line : List Char)
    (hb : badLine line = true) : run (pre ++ line :: post) = none := by
  have hall : ∀ tbl : Table, processAllFrom tbl (pre ++ line :: post) = none := by
    induction pre with
    | nil =>
      intro tbl
      show processAllFrom tbl (line :: post) = none
      unfold processAllFrom
      rw [process_line_badLine line hb tbl]
    | cons p pre ih =>
      intro tbl
      show processAllFrom tbl (p :: (pre ++ line :: post)) = none
      unfold processAllFrom
      cases hp : process_line tbl p with
      | none => rfl
      | some t => exact ih t
  unfold run
  rw [hall []]
  rfl

/-- C8, witness: a run whose only line lacks the semicolon produces none. -/
theorem claim_C8_witness :
    badLine ['H', 'i'] = true ∧ run [['H', 'i']] = none :=
  ⟨by decide, claim_C8_fatal_abort [] [] ['H', 'i'] (by decide)⟩

/-! Renderer lemmas. -/

/-- Entries each followed by a comma and a space, the exact text the renderer
fold accumulates before the two pops. -/
def joinAll : List (List Char) → List Char
  | [] => []
  | e :: es => e ++ [',', ' '] ++ joinAll es

lemma summary_append (cd : CityData) (buf e : List Char)
    (h : CityData.summary cd [] = some e) :
    CityData.summary cd buf = some (buf ++ e) := by
  unfold CityData.summary at h ⊢
  by_cases hc : cd.data_points = 0
  · rw [if_pos hc] at h
    exact absurd h (by simp)
  · rw [if_neg hc] at h ⊢
    cases h1 : int_to_temperature 10 cd.minimum_temperature with
    | none => rw [h1] at h; simp at h
    | some mn =>
      cases h2 : int_to_temperature 10 (Int.tdiv cd.temperatures_sum cd.data_points) with
      | none => rw [h1, h2] at h; simp at h
      | some mean =>
        cases h3 : int_to_temperature 10 cd.maximum_temperature with
        | none => rw [h1, h2, h3] at h; simp at h
        | some mx =>
          rw [h1, h2, h3] at h
          dsimp only at h
          injection h with h
          rw [← h]
          simp [List.append_assoc]

lemma renderBody_eq : ∀ (records : List CityData) (acc : List Char) (es : List (List Char)),
    summaries records = some es →
    renderBody records acc = some (acc ++ joinAll es) := by
  intro records
  induction records with
  | nil =>
    intro acc es h
    simp only [summaries, Option.some_inj] at h
    subst h
    simp [renderBody, joinAll]
  | cons cd rest ih =>
    intro acc es h
    unfold summaries at h
    cases h0 : CityData.summary cd [] with
    | none => rw [h0] at h; simp at h
    | some e0 =>
      cases hs : summaries rest with
      | none => rw [h0, hs] at h; simp at h
      | some es0 =>
        rw [h0, hs] at h
        simp only [Option.some_inj] at h
        subst h
        unfold renderBody
        rw [summary_append cd acc e0 h0]
        dsimp only
        rw [ih _ es0 hs]
        simp [joinAll, List.append_assoc]

lemma joinAll_eq_joinSep : ∀ (es : List (List Char)) (e : List Char),
    joinAll (e :: es) = joinSep (e :: es) ++ [',', ' '] := by
  intro es
  induction es with
  | nil => intro e; simp [joinAll, joinSep]
  | cons e2 es ih =>
    intro e
    show e ++ [',', ' '] ++ joinAll (e2 :: es) =
      (e ++ [',', ' '] ++ joinSep (e2 :: es)) ++ [',', ' ']
    rw [ih e2]
    simp [List.append_assoc]

lemma dropLast_sep (l : List Char) : ((l ++ [',', ' ']).dropLast).dropLast = l := by
  rw [show l ++ [',', ' '] = (l ++ [',']) ++ [' '] by simp,
    List.dropLast_concat, List.dropLast_concat]

/-- C7, counterexample: for the empty aggregate table (all of whose zero
records trivially render) the blob is the single closing brace, which does
not open with a brace-wrapped entry list as the claim requires of every
table. -/
theorem claim_C7_counterexample :
    renderReport [] = some ['\x7d'] ∧ summaries [] = some [] ∧
      ¬ renderReport [] = some ('\x7b' :: (joinSep [] ++ ['\x7d'])) := by decide

/-- C7, amended: for every nonempty final table all of whose records render,
the report blob is an opening brace, the record entries in table order
separated by one comma and one space with no trailing separator, and a
closing brace. -/
theorem claim_C7_report_structure (records : List CityData) (es : List (List Char))
    (hne : records ≠ []) (h : summaries records = some es) :
    renderReport records = some ('\x7b' :: (joinSep es ++ ['\x7d'])) := by
  obtain ⟨cd, rest, rfl⟩ := List.exists_cons_of_ne_nil hne
  cases es with
  | nil =>
    exfalso
    unfold summaries at h
    cases h0 : CityData.summary cd [] with
    | none => rw [h0] at h; simp at h
    | some e0 =>
      cases hs : summaries rest with
      | none => rw [h0, hs] at h; simp at h
      | some es0 => rw [h0, hs] at h; simp at h
  | cons e0 es0 =>
    unfold renderReport
    rw [renderBody_eq _ _ _ h]
    show some ((('\x7b' :: joinAll (e0 :: es0)).dropLast).dropLast ++ ['\x7d']) = _
    rw [joinAll_eq_joinSep es0 e0,
      show '\x7b' :: (joinSep (e0 :: es0) ++ [',', ' ']) =
        ('\x7b' :: joinSep (e0 :: es0)) ++ [',', ' '] by simp,
      dropLast_sep]
    simp

/-- C7, witness: the amended report-structure theorem at a concrete
two-record table. -/
theorem claim_C7_witness :
    summaries [⟨['a'], 10, 10, 10, 1⟩, ⟨['b'], 20, 20, 20, 1⟩] =
        some [['a', '=', '1', '.', '0', '/', '1', '.', '0', '/', '1', '.', '0'],
          ['b', '=', '2', '.', '0', '/', '2', '.', '0', '/', '2', '.', '0']] ∧
      renderReport [⟨['a'], 10, 10, 10, 1⟩, ⟨['b'], 20, 20, 20, 1⟩] =
        some ('\x7b' ::
          (joinSep [['a', '=', '1', '.', '0', '/', '1', '.', '0', '/', '1', '.', '0'],
            ['b', '=', '2', '.', '0', '/', '2', '.', '0', '/', '2', '.', '0']] ++ ['\x7d'])) :=
  ⟨by decide,
    claim_C7_report_structure _ _ (by decide) (by decide)⟩

/-- C10: a run over zero input lines renders the single closing brace, not
the empty pair of braces: the two unconditional pops remove the opening
brace itself (the second pop hits an already empty buffer). -/
theorem claim_C10_empty_report :
    run [] = some ['\x7d'] ∧ ¬ run [] = some ['\x7b', '\x7d'] := by decide

/-! Component lemmas for the record update fold. -/

lemma updateWith_city (cd : CityData) (v : Int) :
    (updateWith cd v).city_name = cd.city_name := rfl

lemma updateWith_min (cd : CityData) (v : Int) :
    (updateWith cd v).minimum_temperature = min cd.minimum_temperature v := by
  simp only [updateWith, min_def]
  split_ifs <;> omega

lemma updateWith_max (cd : CityData) (v : Int) :
    (updateWith cd v).maximum_temperature = max cd.maximum_temperature v := by
  simp only [updateWith, max_def]
  split_ifs <;> omega

lemma foldl_updateWith_city : ∀ (vs : List Int) (cd : CityData),
    (List.foldl updateWith cd vs).city_name = cd.city_name := by
  intro vs
  induction vs with
  | nil => intro cd; rfl
  | cons v vs ih =>
    intro cd
    rw [List.foldl_cons, ih, updateWith_city]

lemma foldl_updateWith_min : ∀ (vs : List Int) (cd : CityData),
    (List.foldl updateWith cd vs).minimum_temperature =
      List.foldl min cd.minimum_temperature vs := by
  intro vs
  induction vs with
  | nil => intro cd; rfl
  | cons v vs ih =>
    intro cd
    rw [List.foldl_cons, List.foldl_cons, ih, updateWith_min]

lemma foldl_updateWith_max : ∀ (vs : List Int) (cd : CityData),
    (List.foldl updateWith cd vs).maximum_temperature =
      List.foldl max cd.maximum_temperature vs := by
  intro vs
  induction vs with
  | nil => intro cd; rfl
  | cons v vs ih =>
    intro cd
    rw [List.foldl_cons, List.foldl_cons, ih, updateWith_max]

lemma foldl_updateWith_sum : ∀ (vs : List Int) (cd : CityData),
    i64.wrap cd.temperatures_sum = cd.temperatures_sum →
    (List.foldl updateWith cd vs).temperatures_sum =
      i64.wrap (cd.temperatures_sum + vs.sum) := by
  intro vs
  induction vs with
  | nil =>
    intro cd h
    rw [List.foldl_nil, List.sum_nil, add_zero, h]
  | cons v vs ih =>
    intro cd h
    rw [List.foldl_cons, ih _ (i64.wrap_idem _)]
    show i64.wrap (i64.wrap (cd.temperatures_sum + v) + vs.sum) = _
    rw [i64.wrap_wrap_add_left, List.sum_cons, add_assoc]

lemma foldl_updateWith_count : ∀ (vs : List Int) (cd : CityData),
    i64.wrap cd.data_points = cd.data_points →
    (List.foldl updateWith cd vs).data_points =
      i64.wrap (cd.data_points + vs.length) := by
  intro vs
  induction vs with
  | nil =>
    intro cd h
    rw [List.foldl_nil, List.length_nil]
    simp only [Nat.cast_zero, add_zero]
    exact h.symm
  | cons v vs ih =>
    intro cd h
    rw [List.foldl_cons, ih _ (i64.wrap_idem _)]
    show i64.wrap (i64.wrap (cd.data_points + 1) + vs.length) = _
    rw [i64.wrap_wrap_add_left, List.length_cons]
    push_cast
    ring_nf

lemma foldl_min_le : ∀ (vs : List Int) (a : Int),
    List.foldl min a vs ≤ a ∧ ∀ x ∈ vs, List.foldl min a vs ≤ x := by
  intro vs
  induction vs with
  | nil => intro a; exact ⟨le_rfl, by simp⟩
  | cons v vs ih =>
    intro a
    rw [List.foldl_cons]
    refine ⟨(ih (min a v)).1.trans (min_le_left a v), ?_⟩
    intro x hx
    rcases List.mem_cons.mp hx with h | h
    · subst h
      exact (ih (min a x)).1.trans (min_le_right a x)
    · exact (ih (min a v)).2 x h

lemma foldl_min_mem : ∀ (vs : List Int) (a : Int), List.foldl min a vs ∈ a :: vs := by
  intro vs
  induction vs with
  | nil => intro a; simp
  | cons v vs ih =>
    intro a
    rw [List.foldl_cons]
    rcases le_total a v with hav | hav
    · rw [min_eq_left hav]
      rcases List.mem_cons.mp (ih a) with h | h
      · exact List.mem_cons.mpr (Or.inl h)
      · exact List.mem_cons.mpr (Or.inr (List.mem_cons.mpr (Or.inr h)))
    · rw [min_eq_right hav]
      rcases List.mem_cons.mp (ih v) with h | h
      · exact List.mem_cons.mpr (Or.inr (List.mem_cons.mpr (Or.inl h)))
      · exact List.mem_cons.mpr (Or.inr (List.mem_cons.mpr (Or.inr h)))

lemma foldl_max_ge : ∀ (vs : List Int) (a : Int),
    a ≤ List.foldl max a vs ∧ ∀ x ∈ vs, x ≤ List.foldl max a vs := by
  intro vs
  induction vs with
  | nil => intro a; exact ⟨le_rfl, by simp⟩
  | cons v vs ih =>
    intro a
    rw [List.foldl_cons]
    refine ⟨(le_max_left a v).trans (ih (max a v)).1, ?_⟩
    intro x hx
    rcases List.mem_cons.mp hx with h | h
    · subst h
      exact (le_max_right a x).trans (ih (max a x)).1
    · exact (ih (max a v)).2 x h

lemma foldl_max_mem : ∀ (vs : List Int) (a : Int), List.foldl max a vs ∈ a :: vs := by
  intro vs
  induction vs with
  | nil => intro a; simp
  | cons v vs ih =>
    intro a
    rw [List.foldl_cons]
    rcases le_total a v with hav | hav
    · rw [max_eq_right hav]
      rcases List.mem_cons.mp (ih v) with h | h
      · exact List.mem_cons.mpr (Or.inr (List.mem_cons.mpr (Or.inl h)))
      · exact List.mem_cons.mpr (Or.inr (List.mem_cons.mpr (Or.inr h)))
    · rw [max_eq_left hav]
      rcases List.mem_cons.mp (ih a) with h | h
      · exact List.mem_cons.mpr (Or.inl h)
      · exact List.mem_cons.mpr (Or.inr (List.mem_cons.mpr (Or.inr h)))

/-- Result of feeding a list of values for one city into an optional
existing record: the fresh record of the source (minimum = maximum = first
value, sum = 0, count = 0) always receives the first value through the
common update path. -/
def combineAgg (city : List Char) : Option CityData → List Int → Option CityData
  | none, [] => none
  | none, v :: vs => some (List.foldl updateWith ⟨city, v, v, 0, 0⟩ (v :: vs))
  | some r, vs => some (List.foldl updateWith r vs)

lemma process_line_some (tbl : Table) (line c raw : List Char) (v : Int)
    (hsp : split_once line = some (c, raw)) (hv : temperature_to_int raw = some v) :
    process_line tbl line = some
      (match lookupTbl tbl c with
        | some _ => updateFirst tbl c (fun cd => updateWith cd v)
        | none =>
          updateFirst (tbl ++ [(c, ⟨c, v, v, 0, 0⟩)]) c (fun cd => updateWith cd v)) := by
  simp only [process_line, hsp, hv]
  cases hl : lookupTbl tbl c with
  | some r => rfl
  | none =>
    rw [lookupTbl_append_self tbl c _ hl]

lemma submitted_cons_eq (city line : List Char) (lines : List (List Char))
    (c raw : List Char) (v : Int)
    (hsp : split_once line = some (c, raw)) (hv : temperature_to_int raw = some v) :
    submitted city (line :: lines) =
      if c = city then v :: submitted city lines else submitted city lines := by
  unfold submitted
  rw [List.filterMap_cons]
  simp only [hsp]
  by_cases hc : c = city
  · rw [if_pos hc, if_pos hc, hv]
  · rw [if_neg hc, if_neg hc]

lemma processAllFrom_lookup : ∀ (lines : List (List Char)) (tbl tbl2 : Table),
    processAllFrom tbl lines = some tbl2 → ∀ city : List Char,
    lookupTbl tbl2 city = combineAgg city (lookupTbl tbl city) (submitted city lines) := by
  intro lines
  induction lines with
  | nil =>
    intro tbl tbl2 h city
    have htbl : tbl = tbl2 := by
      simpa [processAllFrom] using h
    subst htbl
    show lookupTbl tbl city = combineAgg city (lookupTbl tbl city) []
    cases hl : lookupTbl tbl city with
    | none => rfl
    | some r => rfl
  | cons line rest ih =>
    intro tbl tbl2 h city
    unfold processAllFrom at h
    cases hp : process_line tbl line with
    | none => rw [hp] at h; exact absurd h (by simp)
    | some tbl1 =>
      rw [hp] at h
      have IH := ih tbl1 tbl2 h city
      cases hsp : split_once line with
      | none =>
        rw [process_line] at hp
        rw [hsp] at hp
        exact absurd hp (by simp)
      | some p =>
        obtain ⟨c, raw⟩ := p
        cases hv : temperature_to_int raw with
        | none =>
          rw [process_line, hsp] at hp
          dsimp only at hp
          rw [hv] at hp
          exact absurd hp (by simp)
        | some v =>
          rw [process_line_some tbl line c raw v hsp hv] at hp
          have htbl1 := (Option.some_inj.mp hp).symm
          rw [submitted_cons_eq city line rest c raw v hsp hv]
          by_cases hc : c = city
          · subst hc
            rw [if_pos rfl]
            cases hl : lookupTbl tbl c with
            | some r0 =>
              rw [hl] at htbl1
              dsimp only at htbl1
              have hlook1 : lookupTbl tbl1 c = some (updateWith r0 v) := by
                rw [htbl1]
                exact lookupTbl_updateFirst_self tbl c _ r0 hl
              rw [hlook1] at IH
              rw [IH]
              show combineAgg c (some (updateWith r0 v)) (submitted c rest) = _
              cases hsub : submitted c rest <;>
                simp [combineAgg, List.foldl_cons]
            | none =>
              rw [hl] at htbl1
              dsimp only at htbl1
              have hnew : lookupTbl (tbl ++ [(c, ⟨c, v, v, 0, 0⟩)]) c =
                  some (⟨c, v, v, 0, 0⟩ : CityData) :=
                lookupTbl_append_self tbl c _ hl
              have hlook1 : lookupTbl tbl1 c = some (updateWith ⟨c, v, v, 0, 0⟩ v) := by
                rw [htbl1]
                exact lookupTbl_updateFirst_self _ c _ _ hnew
              rw [hlook1] at IH
              rw [IH]
              show combineAgg c (some (updateWith ⟨c, v, v, 0, 0⟩ v)) (submitted c rest) = _
              cases hsub : submitted c rest <;>
                simp [combineAgg, List.foldl_cons]
          · rw [if_neg hc]
            have hlook1 : lookupTbl tbl1 city = lookupTbl tbl city := by
              cases hl : lookupTbl tbl c with
              | some r0 =>
                rw [hl] at htbl1
                dsimp only at htbl1
                rw [htbl1]
                exact lookupTbl_updateFirst_ne tbl c city _ hc
              | none =>
                rw [hl] at htbl1
                dsimp only at htbl1
                rw [htbl1, lookupTbl_updateFirst_ne _ c city _ hc,
                  lookupTbl_append_ne tbl c city _ hc]
            rw [hlook1] at IH
            exact IH

set_option maxRecDepth 8000 in
/-- C1, counterexample: two lines submit the scaled value 2^63 - 1 under the
key a; the exact arithmetic sum is 2^64 - 2, but the stored i64 sum wraps to
-2, so the aggregate record does not carry the exact sum for every finite
sequence of valid lines. -/
theorem claim_C1_counterexample :
    ((processAllFrom []
        [['a', ';', '9', '2', '2', '3', '3', '7', '2', '0', '3', '6', '8', '5', '4', '7',
            '7', '5', '8', '0', '.', '7', '\n'],
          ['a', ';', '9', '2', '2', '3', '3', '7', '2', '0', '3', '6', '8', '5', '4', '7',
            '7', '5', '8', '0', '.', '7', '\n']]).bind
        (fun tbl => lookupTbl tbl ['a'])).map (fun r => r.temperatures_sum) = some (-2) ∧
      (submitted ['a']
        [['a', ';', '9', '2', '2', '3', '3', '7', '2', '0', '3', '6', '8', '5', '4', '7',
            '7', '5', '8', '0', '.', '7', '\n'],
          ['a', ';', '9', '2', '2', '3', '3', '7', '2', '0', '3', '6', '8', '5', '4', '7',
            '7', '5', '8', '0', '.', '7', '\n']]).sum = 18446744073709551614 ∧
      (-2 : Int) ≠ 18446744073709551614 := by decide

/-- C1, amended: after a successful run, the record stored for a key bounds
every submitted value between its minimum and maximum; its count is the
number of submitted lines and its sum the exact arithmetic sum of the
submitted scaled values whenever those quantities fit in i64 (the stored
i64 count and sum wrap otherwise). -/
theorem claim_C1_aggregate_invariants (lines : List (List Char)) (tbl : Table)
    (city : List Char) (r : CityData)
    (hrun : processAllFrom [] lines = some tbl)
    (hlook : lookupTbl tbl city = some r) :
    (∀ v ∈ submitted city lines,
        r.minimum_temperature ≤ v ∧ v ≤ r.maximum_temperature) ∧
      (((submitted city lines).length : Int) < 9223372036854775808 →
        r.data_points = ((submitted city lines).length : Int)) ∧
      (-9223372036854775808 ≤ (submitted city lines).sum →
        (submitted city lines).sum < 9223372036854775808 →
        r.temperatures_sum = (submitted city lines).sum) := by
  have h := processAllFrom_lookup lines [] tbl hrun city
  rw [hlook] at h
  cases hsub : submitted city lines with
  | nil =>
    rw [hsub] at h
    exact absurd h (by simp [lookupTbl, combineAgg])
  | cons v vs =>
    rw [hsub] at h
    have hr : r = List.foldl updateWith ⟨city, v, v, 0, 0⟩ (v :: vs) := by
      have : combineAgg city (lookupTbl ([] : Table) city) (v :: vs) =
          some (List.foldl updateWith ⟨city, v, v, 0, 0⟩ (v :: vs)) := rfl
      rw [this] at h
      exact Option.some_inj.mp h
    subst hr
    refine ⟨?_, ?_, ?_⟩
    · intro x hx
      constructor
      · rw [foldl_updateWith_min]
        exact (foldl_min_le (v :: vs) _).2 x hx
      · rw [foldl_updateWith_max]
        exact (foldl_max_ge (v :: vs) _).2 x hx
    · intro hlen
      rw [foldl_updateWith_count _ _ (by dsimp only; decide)]
      show i64.wrap ((0 : Int) + ((v :: vs).length : Int)) = _
      rw [zero_add]
      exact i64.wrap_eq_self (by omega) hlen
    · intro hlo hhi
      rw [foldl_updateWith_sum _ _ (by dsimp only; decide)]
      show i64.wrap ((0 : Int) + (v :: vs).sum) = _
      rw [zero_add]
      exact i64.wrap_eq_self hlo hhi

/-- C1, witness: the amended aggregate theorem at the one-line input a;1.0,
whose record is min = max = sum = 10, count = 1. -/
theorem claim_C1_witness :
    processAllFrom [] [['a', ';', '1', '.', '0', '\n']] =
        some [(['a'], ⟨['a'], 10, 10, 10, 1⟩)] ∧
      lookupTbl [(['a'], ⟨['a'], 10, 10, 10, 1⟩)] ['a'] = some ⟨['a'], 10, 10, 10, 1⟩ ∧
      (∀ v ∈ submitted ['a'] [['a', ';', '1', '.', '0', '\n']],
          (⟨['a'], 10, 10, 10, 1⟩ : CityData).minimum_temperature ≤ v ∧
            v ≤ (⟨['a'], 10, 10, 10, 1⟩ : CityData).maximum_temperature) ∧
      (⟨['a'], 10, 10, 10, 1⟩ : CityData).data_points =
        ((submitted ['a'] [['a', ';', '1', '.', '0', '\n']]).length : Int) ∧
      (⟨['a'], 10, 10, 10, 1⟩ : CityData).temperatures_sum =
        (submitted ['a'] [['a', ';', '1', '.', '0', '\n']]).sum := by
  have C := claim_C1_aggregate_invariants [['a', ';', '1', '.', '0', '\n']]
    [(['a'], ⟨['a'], 10, 10, 10, 1⟩)] ['a'] ⟨['a'], 10, 10, 10, 1⟩ (by decide) (by decide)
  exact ⟨by decide, by decide, C.1, C.2.1 (by decide), C.2.2 (by decide) (by decide)⟩

lemma foldl_min_head_eq {v w : Int} {vs ws : List Int}
    (hperm : (v :: vs).Perm (w :: ws)) :
    List.foldl min v (v :: vs) = List.foldl min w (w :: ws) := by
  have hm1 : List.foldl min v (v :: vs) ∈ v :: vs := by
    rcases List.mem_cons.mp (foldl_min_mem (v :: vs) v) with h | h
    · rw [h]; exact List.mem_cons_self v vs
    · exact h
  have hm2 : List.foldl min w (w :: ws) ∈ w :: ws := by
    rcases List.mem_cons.mp (foldl_min_mem (w :: ws) w) with h | h
    · rw [h]; exact List.mem_cons_self w ws
    · exact h
  exact le_antisymm
    ((foldl_min_le (v :: vs) v).2 _ (hperm.mem_iff.mpr hm2))
    ((foldl_min_le (w :: ws) w).2 _ (hperm.mem_iff.mp hm1))

lemma foldl_max_head_eq {v w : Int} {vs ws : List Int}
    (hperm : (v :: vs).Perm (w :: ws)) :
    List.foldl max v (v :: vs) = List.foldl max w (w :: ws) := by
  have hm1 : List.foldl max v (v :: vs) ∈ v :: vs := by
    rcases List.mem_cons.mp (foldl_max_mem (v :: vs) v) with h | h
    · rw [h]; exact List.mem_cons_self v vs
    · exact h
  have hm2 : List.foldl max w (w :: ws) ∈ w :: ws := by
    rcases List.mem_cons.mp (foldl_max_mem (w :: ws) w) with h | h
    · rw [h]; exact List.mem_cons_self w ws
    · exact h
  exact le_antisymm
    ((foldl_max_ge (w :: ws) w).2 _ (hperm.mem_iff.mp hm1))
    ((foldl_max_ge (v :: vs) v).2 _ (hperm.mem_iff.mpr hm2))

/-- C6: feeding the same multiset of lines in any order yields, for every
key, an identical aggregate record (minimum, maximum, sum and count alike);
order affects only the position of keys inside the table. -/
theorem claim_C6_order_independence (l1 l2 : List (List Char)) (t1 t2 : Table)
    (hperm : l1.Perm l2)
    (h1 : processAllFrom [] l1 = some t1) (h2 : processAllFrom [] l2 = some t2) :
    ∀ city : List Char, lookupTbl t1 city = lookupTbl t2 city := by
  intro city
  rw [processAllFrom_lookup l1 [] t1 h1 city, processAllFrom_lookup l2 [] t2 h2 city]
  have hsperm : (submitted city l1).Perm (submitted city l2) := hperm.filterMap _
  cases hs1 : submitted city l1 with
  | nil =>
    rw [hs1] at hsperm
    rw [hsperm.symm.eq_nil]
  | cons v vs =>
    cases hs2 : submitted city l2 with
    | nil =>
      rw [hs1, hs2] at hsperm
      exact absurd hsperm.eq_nil (by simp)
    | cons w ws =>
      rw [hs1, hs2] at hsperm
      show some (List.foldl updateWith ⟨city, v, v, 0, 0⟩ (v :: vs)) =
        some (List.foldl updateWith ⟨city, w, w, 0, 0⟩ (w :: ws))
      refine congrArg some (CityData.ext ?_ ?_ ?_ ?_ ?_)
      · rw [foldl_updateWith_city, foldl_updateWith_city]
      · rw [foldl_updateWith_min, foldl_updateWith_min]
        exact foldl_min_head_eq hsperm
      · rw [foldl_updateWith_max, foldl_updateWith_max]
        exact foldl_max_head_eq hsperm
      · rw [foldl_updateWith_sum _ _ (by dsimp only; decide),
          foldl_updateWith_sum _ _ (by dsimp only; decide)]
        rw [hsperm.sum_eq]
      · rw [foldl_updateWith_count _ _ (by dsimp only; decide),
          foldl_updateWith_count _ _ (by dsimp only; decide)]
        rw [hsperm.length_eq]

/-- C6, witness: the order-independence theorem at the concrete two-line
inputs a;1.0 b;2.0 and b;2.0 a;1.0, checked on both keys. -/
theorem claim_C6_witness :
    processAllFrom [] [['a', ';', '1', '.', '0', '\n'], ['b', ';', '2', '.', '0', '\n']] =
        some [(['a'], ⟨['a'], 10, 10, 10, 1⟩), (['b'], ⟨['b'], 20, 20, 20, 1⟩)] ∧
      processAllFrom [] [['b', ';', '2', '.', '0', '\n'], ['a', ';', '1', '.', '0', '\n']] =
        some [(['b'], ⟨['b'], 20, 20, 20, 1⟩), (['a'], ⟨['a'], 10, 10, 10, 1⟩)] ∧
      lookupTbl [(['a'], ⟨['a'], 10, 10, 10, 1⟩), (['b'], ⟨['b'], 20, 20, 20, 1⟩)] ['a'] =
        lookupTbl [(['b'], ⟨['b'], 20, 20, 20, 1⟩), (['a'], ⟨['a'], 10, 10, 10, 1⟩)] ['a'] ∧
      lookupTbl [(['a'], ⟨['a'], 10, 10, 10, 1⟩), (['b'], ⟨['b'], 20, 20, 20, 1⟩)] ['b'] =
        lookupTbl [(['b'], ⟨['b'], 20, 20, 20, 1⟩), (['a'], ⟨['a'], 10, 10, 10, 1⟩)] ['b'] := by
  have C := claim_C6_order_independence
    [['a', ';', '1', '.', '0', '\n'], ['b', ';', '2', '.', '0', '\n']]
    [['b', ';', '2', '.', '0', '\n'], ['a', ';', '1', '.', '0', '\n']]
    [(['a'], ⟨['a'], 10, 10, 10, 1⟩), (['b'], ⟨['b'], 20, 20, 20, 1⟩)]
    [(['b'], ⟨['b'], 20, 20, 20, 1⟩), (['a'], ⟨['a'], 10, 10, 10, 1⟩)]
    (List.Perm.swap ['b', ';', '2', '.', '0', '\n'] ['a', ';', '1', '.', '0', '\n'] [])
    (by decide) (by decide)
  exact ⟨by decide, by decide, C ['a'], C ['b']⟩

example : temperature_to_int ['1', '2', '.', '0', '\n'] = some 120 := by decide
example : temperature_to_int ['-', '3', '.', '5'] = some (-35) := by decide
example : temperature_to_int ['0', '.', '0'] = some 0 := by decide
example : temperature_to_int [] = none := by decide
example : temperature_to_int ['x'] = none := by decide
example : int_to_temperature 10 0 = some ['0', '.', '0'] := by decide
example : int_to_temperature 10 (-35) = some ['-', '3', '.', '5'] := by decide
example : int_to_temperature 10 120 = some ['1', '2', '.', '0'] := by decide
example : int_to_temperature 10 (-5) = some ['-', '5'] := by decide
example : int_to_temperature 10 10000000000 = none := by decide
